import Mathlib

/-
Verification of the expression-tree library in src/functions.py.

Shallow embedding choices:
- Python numbers are modelled as ℚ (exact arithmetic; the float literal
  1e-8 becomes the rational 1/10^8).
- The numeric-array provider (numpy) is a black box for the transcendental
  functions: a MathProvider supplies sin, cos, exp, log and the power
  operation x ** n.  Polynomial arithmetic is modelled exactly.
- A dynamically typed Python value flowing through evaluate/__call__ is a
  Val: a number, a numpy array, a plain list, a string, None, or a node.
- Exceptions are modelled with Except.
-/

/-- Black-box elementwise math provider (numpy in the source). -/
structure MathProvider where
  sin : ℚ → ℚ
  cos : ℚ → ℚ
  exp : ℚ → ℚ
  log : ℚ → ℚ
  qpow : ℚ → ℚ → ℚ

/-- The closed set of node kinds of the source, one constructor per class
(Affine, Scale, Constant are Polynomial instances with fixed shapes).
The two extra constructors strLit and numLit model raw Python objects that
the source can lodge inside a tree: Compose.derivative calls
`self.f.derivative()(self.g)`, which for a Symbolic f returns a plain
string, and `AbstractFunction.__add__`/`__mul__` with a number operand
would store that number; such nodes fail with a TypeError when called. -/
inductive Func
  | Polynomial (coeff : List ℚ)
  | Sum (f g : Func)
  | Product (f g : Func)
  | Compose (f g : Func)
  | Power (n : ℚ)
  | Log
  | Exponential
  | Sin
  | Cos
  | Symbolic (name : String)
  | strLit (s : String)
  | numLit (q : ℚ)
deriving DecidableEq

/-- A dynamically typed Python value.  Val.func always carries a proper
node; the auxiliary strLit/numLit constructors of Func only occur as
children inside trees, never under Val.func in any reachable value. -/
inductive Val
  | num (q : ℚ)
  | arr (v : List ℚ)
  | list (v : List ℚ)
  | str (s : String)
  | none
  | func (f : Func)
deriving DecidableEq

/-- Errors raised during evaluation (Python exception kinds). -/
inductive EvalErr
  | typeError
  | notImplemented
  | attributeError
  | broadcastError
deriving DecidableEq

/-- `isinstance(f, AbstractFunction)`: false exactly for the raw Python
objects lodged in a tree. -/
def Func.isAbstractFunction : Func → Bool
  | .strLit _ => false
  | .numLit _ => false
  | _ => true

/-- `isinstance(f, Symbolic)`. -/
def Func.isSymbolic : Func → Bool
  | .Symbolic _ => true
  | _ => false

/-- Python display of a number (coefficients are printed by str()). -/
def pyShow (q : ℚ) : String :=
  if q.den = 1 then toString q.num else toString q

/-- One step of Polynomial.__str__: the term contributed by coefficient c
at enumeration index i (deg is the polynomial degree).  Index arithmetic
is over ℤ because Python computes deg - 1 without truncation. -/
def polyTermsAux (deg : Int) : Int → List ℚ → String → String
  | _, [], s => s
  | i, c :: rest, s =>
    let s2 :=
      if i < deg - 1 then
        if c = 0 then s
        else if c = 1 then s ++ "(\x7b0\x7d)^" ++ toString (deg - i) ++ " + "
        else s ++ pyShow c ++ "(\x7b0\x7d)^" ++ toString (deg - i) ++ " + "
      else if i = deg - 1 then
        if c = 0 then s
        else if c = 1 then s ++ "\x7b0\x7d + "
        else s ++ pyShow c ++ "(\x7b0\x7d) + "
      else
        if c = 0 ∧ s.length > 0 then s
        else s ++ pyShow c
    polyTermsAux deg (i + 1) rest s2

/-- Python `s[-3:] == " + "` check and strip of Polynomial.__str__. -/
def stripTrailingPlus (s : String) : String :=
  let r := s.data.reverse
  if r.take 3 = [' ', '+', ' '] then String.mk ((r.drop 3).reverse) else s

/-- Polynomial.__str__: the format template, highest degree first. -/
def polyStr (coeff : List ℚ) : String :=
  stripTrailingPlus (polyTermsAux ((coeff.length : Int) - 1) 0 coeff (""))

/-- __str__ of every node.  Polynomial, Power and Symbolic apply .format
to their template and therefore contain the single-brace slot \x7b0\x7d;
Log, Exponential, Sin, Cos return their template verbatim, so their
double braces \x7b\x7b0\x7d\x7d survive (the deferred-substitution
fragility noted in the spec). -/
def funcStr : Func → String
  | .Polynomial c => polyStr c
  | .Sum f g => funcStr f ++ " + " ++ funcStr g
  | .Product f g => funcStr f ++ " * " ++ funcStr g
  | .Compose f g => funcStr f ++ "(" ++ funcStr g ++ ")"
  | .Power n => "\x7b0\x7d ^ " ++ pyShow n
  | .Log => "log(\x7b\x7b0\x7d\x7d)"
  | .Exponential => "e ^ \x7b\x7b0\x7d\x7d"
  | .Sin => "sin(\x7b\x7b0\x7d\x7d)"
  | .Cos => "cos(\x7b\x7b0\x7d\x7d)"
  | .Symbolic n => n ++ "(\x7b0\x7d)"
  | .strLit s => s
  | .numLit q => pyShow q

/-- str() of a Val, as used by string formatting. -/
def showVal : Val → String
  | .num q => pyShow q
  | .arr v => "[" ++ String.intercalate (" ") (v.map pyShow) ++ "]"
  | .list v => "[" ++ String.intercalate (", ") (v.map pyShow) ++ "]"
  | .str s => s
  | .none => "None"
  | .func f => funcStr f

/-- Python str.format with one positional argument: resolves the escapes
\x7b\x7b and \x7d\x7d and substitutes the argument for \x7b0\x7d. -/
def formatChars (arg : List Char) : List Char → List Char
  | '\x7b' :: '\x7b' :: rest => '\x7b' :: formatChars arg rest
  | '\x7d' :: '\x7d' :: rest => '\x7d' :: formatChars arg rest
  | '\x7b' :: '0' :: '\x7d' :: rest => arg ++ formatChars arg rest
  | c :: rest => c :: formatChars arg rest
  | [] => []

/-- template.format(arg) for the templates produced by __str__. -/
def formatPy (template arg : String) : String :=
  String.mk (formatChars arg.data template.data)

/-- Polynomial.evaluate on a scalar: `for k, c in enumerate(reversed(coeff)):
ret = ret + c * x**k`. -/
def evalScalar (coeff : List ℚ) (x : ℚ) : ℚ :=
  (coeff.reverse.enum).foldl (fun ret kc => ret + kc.2 * x ^ kc.1) 0

/-- Row of np.vander(x, n): powers x^(n-1), ..., x^0. -/
def vanderRow (x : ℚ) (n : ℕ) : List ℚ :=
  (List.range n).map (fun j => x ^ (n - 1 - j))

/-- Dot product of two coefficient lists. -/
def dotL (a b : List ℚ) : ℚ :=
  ((List.zip a b).map (fun p => p.1 * p.2)).sum

/-- np.array([n+1 for n in reversed(range(degree))]): the degree weights
(degree, degree-1, ..., 1). -/
def weightsOf (c : List ℚ) : List ℚ :=
  ((List.range (c.length - 1)).reverse).map (fun n => ((n + 1 : ℕ) : ℚ))

/-- self.coeff[:-1] * weights: elementwise product used by
Polynomial.derivative. -/
def polyDerivCore (c : List ℚ) : List ℚ :=
  List.zipWith (fun a w => a * w) c.dropLast (weightsOf c)

/-- Polynomial.derivative coefficient computation, including the
degree-0 special case Polynomial(0). -/
def polyDeriv (c : List ℚ) : List ℚ :=
  if c.length = 1 then [0] else polyDerivCore c

/-- `coeff[-(len shorter):] += shorter` on the longer coefficient array:
the last len(shorter) entries are incremented elementwise. -/
def alignedAdd (longer shorter : List ℚ) : List ℚ :=
  longer.take (longer.length - shorter.length) ++
    List.zipWith (· + ·) (longer.drop (longer.length - shorter.length)) shorter

/-- Polynomial.__add__ including its in-place mutation: given the stored
coefficients of self and other, returns (result coefficients,
self.coeff after the call, other.coeff after the call).  The branch on
degrees is over ℤ since Python degrees can be -1.  The slice assignment
mutates the array of the higher-degree operand (other when equal). -/
def polyAddFull (s o : List ℚ) : List ℚ × List ℚ × List ℚ :=
  if ((s.length : Int) - 1) > ((o.length : Int) - 1) then
    (alignedAdd s o, alignedAdd s o, o)
  else
    (alignedAdd o s, s, alignedAdd o s)

/-- np.polymul: full convolution of two coefficient lists. -/
def convolve (a b : List ℚ) : List ℚ :=
  (List.range (a.length + b.length - 1)).map (fun k =>
    ((List.range (k + 1)).map (fun i => a.getD i 0 * b.getD (k - i) 0)).sum)

/-- a + b on two nodes: Polynomial.__add__ closure, otherwise Sum. -/
def addFunc : Func → Func → Func
  | .Polynomial c1, .Polynomial c2 => .Polynomial (polyAddFull c1 c2).1
  | f, g => .Sum f g

/-- a * b on two nodes: Polynomial.__mul__ closure, otherwise Product. -/
def mulFunc : Func → Func → Func
  | .Polynomial c1, .Polynomial c2 => .Polynomial (convolve c1 c2)
  | f, g => .Product f g

/-- Python + on two dynamic values as used inside Sum.evaluate.
Combinations not listed raise TypeError in Python or are unreachable
from evaluate (both operands always come from calling the children at
the same argument); str*int repetition is not modelled since numbers
are ℚ. -/
def addVal : Val → Val → Except EvalErr Val
  | .num a, .num b => .ok (.num (a + b))
  | .num a, .arr v => .ok (.arr (v.map (fun t => a + t)))
  | .arr v, .num b => .ok (.arr (v.map (fun t => t + b)))
  | .arr v, .arr w =>
    if v.length = w.length then .ok (.arr (List.zipWith (· + ·) v w))
    else .error .broadcastError
  | .arr v, .list w =>
    if v.length = w.length then .ok (.arr (List.zipWith (· + ·) v w))
    else .error .broadcastError
  | .list v, .arr w =>
    if v.length = w.length then .ok (.arr (List.zipWith (· + ·) v w))
    else .error .broadcastError
  | .list v, .list w => .ok (.list (v ++ w))
  | .str a, .str b => .ok (.str (a ++ b))
  | .func a, .func b => .ok (.func (addFunc a b))
  | _, _ => .error .typeError

/-- Python * on two dynamic values as used inside Product.evaluate. -/
def mulVal : Val → Val → Except EvalErr Val
  | .num a, .num b => .ok (.num (a * b))
  | .num a, .arr v => .ok (.arr (v.map (fun t => a * t)))
  | .arr v, .num b => .ok (.arr (v.map (fun t => t * b)))
  | .arr v, .arr w =>
    if v.length = w.length then .ok (.arr (List.zipWith (· * ·) v w))
    else .error .broadcastError
  | .arr v, .list w =>
    if v.length = w.length then .ok (.arr (List.zipWith (· * ·) v w))
    else .error .broadcastError
  | .list v, .arr w =>
    if v.length = w.length then .ok (.arr (List.zipWith (· * ·) v w))
    else .error .broadcastError
  | .func a, .func b => .ok (.func (mulFunc a b))
  | _, _ => .error .typeError

/-- Power.evaluate: x ** n.  A node argument goes through
AbstractFunction.__pow__, producing a composition. -/
def powEval (P : MathProvider) (n : ℚ) : Val → Except EvalErr Val
  | .num t => .ok (.num (P.qpow t n))
  | .arr v => .ok (.arr (v.map (fun t => P.qpow t n)))
  | .func g => .ok (.func (.Compose (.Power n) g))
  | _ => .error .typeError

/-- Elementwise numpy function (np.log, np.exp, np.sin, np.cos): accepts
scalars, arrays, and plain lists (coerced to arrays). -/
def elemEval (h : ℚ → ℚ) : Val → Except EvalErr Val
  | .num t => .ok (.num (h t))
  | .arr v => .ok (.arr (v.map h))
  | .list v => .ok (.arr (v.map h))
  | _ => .error .typeError

/-- AbstractFunction.__call__ dispatch: Symbolic overrides it to always
return the formatted string name(arg); a raw object in node position is
not callable; a node argument composes; a string argument renders; any
other argument falls through to the node's evaluate method (those
bodies are inlined here so the recursion is structural). -/
def callVal (P : MathProvider) : Func → Val → Except EvalErr Val
  | .Symbolic n, x => .ok (.str (n ++ "(" ++ showVal x ++ ")"))
  | .strLit _, _ => .error .typeError
  | .numLit _, _ => .error .typeError
  | f, .func g => .ok (.func (.Compose f g))
  | f, .str s => .ok (.str (formatPy (funcStr f) s))
  | .Polynomial c, .num t => .ok (.num (evalScalar c t))
  | .Polynomial c, .arr v =>
    .ok (.arr (v.map (fun t => dotL (vanderRow t c.length) c)))
  | .Polynomial _, _ => .ok .none
  | .Sum f g, x => do
    let a ← callVal P f x
    let b ← callVal P g x
    addVal a b
  | .Product f g, x => do
    let a ← callVal P f x
    let b ← callVal P g x
    mulVal a b
  | .Compose f g, x => do
    let gx ← callVal P g x
    callVal P f gx
  | .Power n, x => powEval P n x
  | .Log, x => elemEval P.log x
  | .Exponential, x => elemEval P.exp x
  | .Sin, x => elemEval P.sin x
  | .Cos, x => elemEval P.cos x

/-- The evaluate method of each node (the bodies the fall-through cases
of callVal inline).  Polynomial dispatches on the argument type and
falls through to None for anything that is neither a number nor an
array; Sum/Product/Compose call their children via __call__; Symbolic
inherits the abstract evaluate, raising NotImplementedError; raw
objects have no evaluate attribute. -/
def evaluate (P : MathProvider) (f : Func) (x : Val) : Except EvalErr Val :=
  match f, x with
  | .Polynomial c, .num t => .ok (.num (evalScalar c t))
  | .Polynomial c, .arr v =>
    .ok (.arr (v.map (fun t => dotL (vanderRow t c.length) c)))
  | .Polynomial _, _ => .ok .none
  | .Sum f g, x => do
    let a ← callVal P f x
    let b ← callVal P g x
    addVal a b
  | .Product f g, x => do
    let a ← callVal P f x
    let b ← callVal P g x
    mulVal a b
  | .Compose f g, x => do
    let gx ← callVal P g x
    callVal P f gx
  | .Power n, x => powEval P n x
  | .Log, x => elemEval P.log x
  | .Exponential, x => elemEval P.exp x
  | .Sin, x => elemEval P.sin x
  | .Cos, x => elemEval P.cos x
  | .Symbolic _, _ => .error .notImplemented
  | .strLit _, _ => .error .attributeError
  | .numLit _, _ => .error .attributeError

/-- self.f.derivative()(self.g) in Compose.derivative: calling a node
with a node argument.  For a Symbolic derivative this is the overridden
__call__, which returns a plain string; calling a raw object raises
TypeError in Python (inert here, unreachable from well-formed trees). -/
def callNode (fp g : Func) : Func :=
  match fp with
  | .Symbolic n => .strLit (n ++ "(" ++ funcStr g ++ ")")
  | .strLit s => .strLit s
  | .numLit q => .numLit q
  | fp => .Compose fp g

/-- derivative() of every node, following each class's rule.  On a raw
object the source would raise AttributeError; modelled as inert since it
is unreachable from well-formed trees. -/
def derivative : Func → Func
  | .Polynomial c => .Polynomial (polyDeriv c)
  | .Sum f g => .Sum (derivative f) (derivative g)
  | .Product f g => .Sum (.Product (derivative f) g) (.Product f (derivative g))
  | .Compose f g => .Product (callNode (derivative f) g) (derivative g)
  | .Power n => .Product (.Polynomial [n]) (.Power (n - 1))
  | .Log => .Power (-1)
  | .Exponential => .Exponential
  | .Sin => .Cos
  | .Cos => .Product (.Polynomial [-1]) .Sin
  | .Symbolic s => .Symbolic (s ++ "\x27")
  | .strLit s => .strLit s
  | .numLit q => .numLit q

/-- The coefficient-weighted power sum c_n x^n + ... + c_1 x + c_0 for a
coefficient list given highest degree first (stated from the spec, to be
compared with the evaluate implementation). -/
def powerSum : List ℚ → ℚ → ℚ
  | [], _ => 0
  | c :: rest, x => c * x ^ rest.length + powerSum rest x

/-- Partial power sum with an index offset: the value accumulated by the
enumerate loop over a low-degree-first list starting at exponent k. -/
def esum (x : ℚ) : List ℚ → ℕ → ℚ
  | [], _ => 0
  | a :: l, k => a * x ^ k + esum x l (k + 1)

theorem foldl_enumFrom_esum (x : ℚ) (l : List ℚ) :
    ∀ (k : ℕ) (init : ℚ),
      (List.enumFrom k l).foldl (fun ret kc => ret + kc.2 * x ^ kc.1) init =
        init + esum x l k := by
  induction l with
  | nil => intro k init; simp [esum]
  | cons a l ih =>
    intro k init
    simp only [List.enumFrom, List.foldl_cons, esum]
    rw [ih]
    ring

theorem esum_append_singleton (x : ℚ) (l : List ℚ) (a : ℚ) :
    ∀ k, esum x (l ++ [a]) k = esum x l k + a * x ^ (k + l.length) := by
  induction l with
  | nil => intro k; simp [esum]
  | cons b l ih =>
    intro k
    have h1 : esum x ((b :: l) ++ [a]) k = b * x ^ k + esum x (l ++ [a]) (k + 1) := rfl
    have h2 : esum x (b :: l) k = b * x ^ k + esum x l (k + 1) := rfl
    rw [h1, h2, ih, List.length_cons,
      show k + (l.length + 1) = k + 1 + l.length from by omega]
    ring

/-- The scalar evaluate loop computes the coefficient-weighted power sum. -/
theorem evalScalar_eq_powerSum (c : List ℚ) (x : ℚ) :
    evalScalar c x = powerSum c x := by
  have h : ∀ c : List ℚ, esum x c.reverse 0 = powerSum c x := by
    intro c
    induction c with
    | nil => simp [esum, powerSum]
    | cons a rest ih =>
      simp only [List.reverse_cons, powerSum]
      rw [esum_append_singleton]
      simp [ih, List.length_reverse]
      ring
  unfold evalScalar
  rw [List.enum, foldl_enumFrom_esum, h]
  ring

theorem vanderRow_succ (x : ℚ) (n : ℕ) :
    vanderRow x (n + 1) = x ^ n :: vanderRow x n := by
  unfold vanderRow
  rw [List.range_succ_eq_map]
  simp only [Nat.add_sub_cancel, Nat.sub_zero, List.map_cons, List.map_map]
  refine congrArg₂ List.cons rfl ?_
  apply List.map_congr_left
  intro j hj
  show x ^ (n - (j + 1)) = x ^ (n - 1 - j)
  have he : n - (j + 1) = n - 1 - j := by omega
  rw [he]

/-- The Vandermonde-row dot product computes the same power sum. -/
theorem vander_dot_eq_powerSum (c : List ℚ) (x : ℚ) :
    dotL (vanderRow x c.length) c = powerSum c x := by
  induction c with
  | nil => simp [dotL, vanderRow, powerSum]
  | cons a rest ih =>
    simp only [List.length_cons, powerSum]
    rw [vanderRow_succ]
    simp only [dotL, List.zip_cons_cons, List.map_cons, List.sum_cons]
    rw [show ((List.zip (vanderRow x rest.length) rest).map
      (fun p => p.1 * p.2)).sum = dotL (vanderRow x rest.length) rest from rfl]
    rw [ih]
    ring

/-- The polynomial (in the sense of calculus/algebra) denoted by a
coefficient list given highest degree first. -/
noncomputable def toPolyHigh : List ℚ → Polynomial ℚ
  | [] => 0
  | a :: rest => Polynomial.C a * Polynomial.X ^ rest.length + toPolyHigh rest

theorem powerSum_eval (c : List ℚ) (x : ℚ) :
    powerSum c x = Polynomial.eval x (toPolyHigh c) := by
  induction c with
  | nil => simp [powerSum, toPolyHigh]
  | cons a rest ih => simp [powerSum, toPolyHigh, ih]

theorem weightsOf_cons (a b : ℚ) (t : List ℚ) :
    weightsOf (a :: b :: t) = ((b :: t).length : ℚ) :: weightsOf (b :: t) := by
  unfold weightsOf
  simp only [List.length_cons, Nat.add_sub_cancel]
  rw [List.range_succ, List.reverse_append, List.reverse_singleton,
    List.singleton_append, List.map_cons]

theorem polyDerivCore_cons (a : ℚ) (rest : List ℚ) (h : rest ≠ []) :
    polyDerivCore (a :: rest) = (a * (rest.length : ℚ)) :: polyDerivCore rest := by
  obtain ⟨b, t, rfl⟩ := List.exists_cons_of_ne_nil h
  rw [polyDerivCore, weightsOf_cons, List.dropLast_cons₂, List.zipWith_cons_cons]
  rfl

theorem polyDerivCore_length (c : List ℚ) :
    (polyDerivCore c).length = c.length - 1 := by
  unfold polyDerivCore weightsOf
  rw [List.length_zipWith, List.length_dropLast, List.length_map,
    List.length_reverse, List.length_range, Nat.min_self]

/-- The derivative coefficient computation is the formal (calculus)
derivative of the denoted polynomial. -/
theorem toPolyHigh_polyDerivCore (c : List ℚ) :
    toPolyHigh (polyDerivCore c) = Polynomial.derivative (toPolyHigh c) := by
  induction c with
  | nil => simp [polyDerivCore, toPolyHigh]
  | cons a rest ih =>
    by_cases h : rest = []
    · subst h
      simp [polyDerivCore, weightsOf, toPolyHigh]
    · rw [polyDerivCore_cons a rest h]
      simp only [toPolyHigh, polyDerivCore_length, ih]
      rw [map_add]
      congr 1
      rw [Polynomial.derivative_C_mul, Polynomial.derivative_X_pow, map_mul]
      ring

theorem toPolyHigh_polyDeriv (c : List ℚ) :
    toPolyHigh (polyDeriv c) = Polynomial.derivative (toPolyHigh c) := by
  unfold polyDeriv
  by_cases h : c.length = 1
  · obtain ⟨a, rfl⟩ : ∃ a, c = [a] := by
      match c, h with
      | [a], _ => exact ⟨a, rfl⟩
    simp [toPolyHigh]
  · rw [if_neg h]
    exact toPolyHigh_polyDerivCore c

/-- Errors of the Newton functions: the two explicit ValueError checks,
a propagated evaluation exception, a TypeError from arithmetic on a
non-numeric evaluate result, ZeroDivisionError from the Newton step, and
exhaustion of the step bound that models the unbounded while loop. -/
inductive NewtonErr
  | notAbstractFunction
  | symbolicArg
  | evalFail (e : EvalErr)
  | nonNumeric
  | zeroDivision
  | fuelExhausted
deriving DecidableEq

/-- f.evaluate(x) at a scalar, demanding a numeric result (anything else
makes the subsequent arithmetic raise a TypeError). -/
def evalNumN (P : MathProvider) (f : Func) (x : ℚ) : Except NewtonErr ℚ :=
  match evaluate P f (.num x) with
  | .ok (.num q) => .ok q
  | .ok _ => .error .nonNumeric
  | .error e => .error (.evalFail e)

/-- The while loop of newton_root: while abs(fx) > tol, set
x ← x - fx / f.derivative().evaluate(x) and re-evaluate fx = f.evaluate(x).
The loop itself is unbounded; fuel counts the remaining permitted
iterations of the model. -/
def newtonLoop (P : MathProvider) (f : Func) (tol : ℚ) :
    ℕ → ℚ → ℚ → Except NewtonErr ℚ
  | 0, x, fx => if |fx| > tol then .error .fuelExhausted else .ok x
  | fuel + 1, x, fx =>
    if |fx| > tol then
      match evalNumN P (derivative f) x with
      | .error e => .error e
      | .ok d =>
        if d = 0 then .error .zeroDivision
        else
          match evalNumN P f (x - fx / d) with
          | .error e => .error e
          | .ok fx2 => newtonLoop P f tol fuel (x - fx / d) fx2
    else .ok x

/-- newton_root: the two ValueError checks (f must be an
AbstractFunction, f must not be a Symbolic), then fx = f.evaluate(x0)
and the Newton iteration. -/
def newton_root (P : MathProvider) (farg : Val) (x0 tol : ℚ) (fuel : ℕ) :
    Except NewtonErr ℚ :=
  match farg with
  | .func f =>
    if f.isAbstractFunction then
      if f.isSymbolic then .error .symbolicArg
      else
        match evalNumN P f x0 with
        | .error e => .error e
        | .ok fx => newtonLoop P f tol fuel x0 fx
    else .error .notAbstractFunction
  | _ => .error .notAbstractFunction

/-- The float default tol=1e-8 of the source. -/
def defaultTol : ℚ := 1 / 100000000

/-- newton_extremum: replaces f by f.derivative() and calls
newton_root(f, x0) without forwarding tol, so the default tolerance is
used.  A non-node argument fails at the f.derivative() attribute
lookup. -/
def newton_extremum (P : MathProvider) (farg : Val) (x0 tol : ℚ)
    (fuel : ℕ) : Except NewtonErr ℚ :=
  match farg with
  | .func f => newton_root P (.func (derivative f)) x0 defaultTol fuel
  | _ => .error (.evalFail .attributeError)

/-- A concrete provider for closed-form witnesses (polynomial nodes
never consult it). -/
def P0 : MathProvider := ⟨fun _ => 0, fun _ => 0, fun _ => 0, fun _ => 0, fun _ _ => 0⟩

/-- An argument value that is neither a node nor a string, i.e. one that
__call__ passes through to evaluate. -/
def Val.isPlain : Val → Bool
  | .func _ => false
  | .str _ => false
  | _ => true

/-- For a proper non-Symbolic node and a plain argument, __call__ is
exactly the node's evaluate method. -/
theorem callVal_eq_evaluate (P : MathProvider) (f : Func) (x : Val)
    (hA : f.isAbstractFunction = true) (hS : f.isSymbolic = false)
    (hx : x.isPlain = true) : callVal P f x = evaluate P f x := by
  cases f <;> cases x <;>
    first
      | rfl
      | simp_all [Func.isAbstractFunction, Func.isSymbolic, Val.isPlain]

/-- derivative() preserves the Symbolic/non-Symbolic status. -/
theorem derivative_isSymbolic (f : Func) :
    (derivative f).isSymbolic = f.isSymbolic := by
  cases f <;> rfl

/-- derivative() preserves proper-nodeness. -/
theorem derivative_isAbstractFunction (f : Func) :
    (derivative f).isAbstractFunction = f.isAbstractFunction := by
  cases f <;> rfl

/-- Calling a non-Symbolic proper node with a node argument composes. -/
theorem callNode_eq_Compose (fp g : Func)
    (hA : fp.isAbstractFunction = true) (hS : fp.isSymbolic = false) :
    callNode fp g = .Compose fp g := by
  cases fp <;> simp_all [Func.isAbstractFunction, Func.isSymbolic, callNode]

/-- A node whose evaluate can succeed is a proper node. -/
theorem isAbstractFunction_of_evaluate_ok (P : MathProvider) (f : Func)
    (x : Val) (r : Val) (h : evaluate P f x = .ok r) :
    f.isAbstractFunction = true := by
  cases f <;> first | rfl | (cases x <;> simp [evaluate] at h)

/-- Zero-padding a coefficient list on the high-degree side (stated from
the spec: right-aligning by degree before summing). -/
def rightSum (s o : List ℚ) : List ℚ :=
  List.zipWith (· + ·)
    (List.replicate (max s.length o.length - s.length) 0 ++ s)
    (List.replicate (max s.length o.length - o.length) 0 ++ o)

theorem zipWith_add_replicate_zero (l : List ℚ) :
    List.zipWith (· + ·) l (List.replicate l.length 0) = l := by
  induction l with
  | nil => rfl
  | cons a l ih => simp [List.replicate, ih]

theorem alignedAdd_eq_zipWith (L S : List ℚ) (h : S.length ≤ L.length) :
    alignedAdd L S =
      List.zipWith (· + ·) L (List.replicate (L.length - S.length) 0 ++ S) := by
  unfold alignedAdd
  obtain ⟨k, hk⟩ : ∃ k, L.length - S.length = k := ⟨_, rfl⟩
  rw [hk]
  conv_rhs => rw [← List.take_append_drop k L]
  rw [List.zipWith_append]
  · congr 1
    rw [show List.replicate k (0 : ℚ) = List.replicate (L.take k).length 0 from by
      rw [List.length_take]; congr 1; omega]
    exact (zipWith_add_replicate_zero _).symm
  · rw [List.length_take, List.length_replicate]; omega

theorem zipWith_add_comm (l1 l2 : List ℚ) :
    List.zipWith (· + ·) l1 l2 = List.zipWith (· + ·) l2 l1 := by
  induction l1 generalizing l2 with
  | nil => cases l2 <;> rfl
  | cons a l ih => cases l2 with
    | nil => rfl
    | cons b m => simp [List.zipWith, ih, add_comm]

theorem evalNumN_error_shape (P : MathProvider) (f : Func) (x : ℚ)
    (e : NewtonErr) (h : evalNumN P f x = .error e) :
    e ≠ .notAbstractFunction ∧ e ≠ .symbolicArg := by
  unfold evalNumN at h
  cases hev : evaluate P f (.num x) with
  | ok v =>
    rw [hev] at h
    rcases v with q | vv | vv | ss | _ | ff
    · exact absurd h (by simp)
    all_goals {
      have h2 : Except.error (α := ℚ) NewtonErr.nonNumeric = Except.error e := h
      injection h2 with h2
      exact h2 ▸ ⟨(fun hc => nomatch hc), (fun hc => nomatch hc)⟩ }
  | error e0 =>
    rw [hev] at h
    have h2 : Except.error (α := ℚ) (NewtonErr.evalFail e0) = Except.error e := h
    injection h2 with h2
    exact h2 ▸ ⟨(fun hc => nomatch hc), (fun hc => nomatch hc)⟩

theorem newtonLoop_error_shape (P : MathProvider) (f : Func) (tol : ℚ) :
    ∀ (fuel : ℕ) (x fx : ℚ) (e : NewtonErr),
      newtonLoop P f tol fuel x fx = .error e →
      e ≠ .notAbstractFunction ∧ e ≠ .symbolicArg := by
  intro fuel
  induction fuel with
  | zero =>
    intro x fx e h
    unfold newtonLoop at h
    by_cases hc : |fx| > tol
    · rw [if_pos hc] at h
      injection h with h
      exact h ▸ ⟨(fun hcc => nomatch hcc), (fun hcc => nomatch hcc)⟩
    · rw [if_neg hc] at h
      cases h
  | succ n ih =>
    intro x fx e h
    unfold newtonLoop at h
    by_cases hc : |fx| > tol
    · rw [if_pos hc] at h
      cases hd : evalNumN P (derivative f) x with
      | error e0 =>
        rw [hd] at h
        have h2 : Except.error (α := ℚ) e0 = Except.error e := h
        injection h2 with h2
        exact h2 ▸ evalNumN_error_shape P (derivative f) x e0 hd
      | ok d =>
        rw [hd] at h
        have h2 : (if d = 0 then Except.error NewtonErr.zeroDivision
            else match evalNumN P f (x - fx / d) with
              | Except.error e => Except.error e
              | Except.ok fx2 => newtonLoop P f tol n (x - fx / d) fx2) =
            Except.error e := h
        by_cases hz : d = 0
        · rw [if_pos hz] at h2
          injection h2 with h2
          exact h2 ▸ ⟨(fun hcc => nomatch hcc), (fun hcc => nomatch hcc)⟩
        · rw [if_neg hz] at h2
          cases h3 : evalNumN P f (x - fx / d) with
          | error e1 =>
            rw [h3] at h2
            have h4 : Except.error (α := ℚ) e1 = Except.error e := h2
            injection h4 with h4
            exact h4 ▸ evalNumN_error_shape P f (x - fx / d) e1 h3
          | ok fx2 =>
            rw [h3] at h2
            have h4 : newtonLoop P f tol n (x - fx / d) fx2 = Except.error e := h2
            exact ih _ _ _ h4
    · rw [if_neg hc] at h
      cases h

theorem newtonLoop_done (P : MathProvider) (f : Func) (tol : ℚ) (fuel : ℕ)
    (x fx : ℚ) (h : ¬(|fx| > tol)) : newtonLoop P f tol fuel x fx = .ok x := by
  cases fuel <;> (unfold newtonLoop; rw [if_neg h])

/-- Claim C1: for every Polynomial p (coefficients highest degree first)
and scalar x, p.evaluate(x) equals the coefficient-weighted power sum
c_0 + c_1 x + ... + c_n x^n. -/
theorem polynomial_evaluate_scalar_power_sum (P : MathProvider)
    (c : List ℚ) (x : ℚ) :
    evaluate P (.Polynomial c) (.num x) = .ok (.num (powerSum c x)) := by
  show Except.ok (Val.num (evalScalar c x)) = _
  rw [evalScalar_eq_powerSum]

/-- Claim C2: for non-Symbolic nodes f and g and any scalar x at which
g, g-prime and f-prime (at g(x)) evaluate, the derivative of
Compose(f, g) evaluates at x to f-prime(g(x)) * g-prime(x) — the chain
rule with the derivative of f evaluated at g(x). -/
theorem compose_derivative_chain_rule (P : MathProvider) (f g : Func)
    (hf : f.isSymbolic = false) (hg : g.isSymbolic = false)
    (x gx dgx dfgx : ℚ)
    (h1 : evaluate P g (.num x) = .ok (.num gx))
    (h2 : evaluate P (derivative g) (.num x) = .ok (.num dgx))
    (h3 : evaluate P (derivative f) (.num gx) = .ok (.num dfgx)) :
    evaluate P (derivative (.Compose f g)) (.num x) = .ok (.num (dfgx * dgx)) := by
  have hAg : g.isAbstractFunction = true :=
    isAbstractFunction_of_evaluate_ok P g _ _ h1
  have hAdg : (derivative g).isAbstractFunction = true :=
    isAbstractFunction_of_evaluate_ok P _ _ _ h2
  have hAdf : (derivative f).isAbstractFunction = true :=
    isAbstractFunction_of_evaluate_ok P _ _ _ h3
  have hSdf : (derivative f).isSymbolic = false := by
    rw [derivative_isSymbolic]; exact hf
  have hSdg : (derivative g).isSymbolic = false := by
    rw [derivative_isSymbolic]; exact hg
  have e1 : callVal P g (.num x) = .ok (.num gx) := by
    rw [callVal_eq_evaluate P g (.num x) hAg hg rfl]; exact h1
  have e2 : callVal P (derivative g) (.num x) = .ok (.num dgx) := by
    rw [callVal_eq_evaluate P (derivative g) (.num x) hAdg hSdg rfl]; exact h2
  have e3 : callVal P (derivative f) (.num gx) = .ok (.num dfgx) := by
    rw [callVal_eq_evaluate P (derivative f) (.num gx) hAdf hSdf rfl]; exact h3
  have e4 : callVal P (.Compose (derivative f) g) (.num x) = .ok (.num dfgx) := by
    have hcc : callVal P (.Compose (derivative f) g) (.num x) =
        (do
          let gv ← callVal P g (.num x)
          callVal P (derivative f) gv) := rfl
    rw [hcc, e1]
    exact e3
  have hD : derivative (.Compose f g) =
      .Product (.Compose (derivative f) g) (derivative g) := by
    show Func.Product (callNode (derivative f) g) (derivative g) = _
    rw [callNode_eq_Compose (derivative f) g hAdf hSdf]
  rw [hD]
  have hP : evaluate P (.Product (.Compose (derivative f) g) (derivative g))
      (.num x) =
      (do
        let a ← callVal P (.Compose (derivative f) g) (.num x)
        let b ← callVal P (derivative g) (.num x)
        mulVal a b) := rfl
  rw [hP, e4, e2]
  rfl

theorem compose_derivative_chain_rule_witness :
    evaluate P0 (derivative (.Compose (.Polynomial [1, 0, 0]) (.Polynomial [1, 1])))
      (.num 3) = .ok (.num 8) := by
  have h1 : evaluate P0 (.Polynomial [1, 1]) (.num 3) = .ok (.num 4) := by
    norm_num [evaluate, evalScalar_eq_powerSum, powerSum]
  have h2 : evaluate P0 (derivative (.Polynomial [1, 1])) (.num 3) = .ok (.num 1) := by
    norm_num [derivative, evaluate, polyDeriv, polyDerivCore, weightsOf,
      List.range_succ, evalScalar_eq_powerSum, powerSum]
  have h3 : evaluate P0 (derivative (.Polynomial [1, 0, 0])) (.num 4) = .ok (.num 8) := by
    norm_num [derivative, evaluate, polyDeriv, polyDerivCore, weightsOf,
      List.range_succ, evalScalar_eq_powerSum, powerSum]
  have h := compose_derivative_chain_rule P0 (.Polynomial [1, 0, 0])
    (.Polynomial [1, 1]) rfl rfl 3 4 1 8 h1 h2 h3
  norm_num at h
  exact h

/-- Claim C3: Polynomial.derivative returns the zero polynomial for
degree 0, and otherwise the coefficients without the constant term
weighted by (degree, ..., 1); in all cases its evaluation at any x is
the calculus derivative of the polynomial at x. -/
theorem polynomial_derivative_power_rule (c : List ℚ) :
    (c.length = 1 → derivative (.Polynomial c) = .Polynomial [0]) ∧
    derivative (.Polynomial c) = .Polynomial (polyDeriv c) ∧
    ∀ (P : MathProvider) (x : ℚ),
      evaluate P (derivative (.Polynomial c)) (.num x) =
        .ok (.num (Polynomial.eval x (Polynomial.derivative (toPolyHigh c)))) := by
  refine ⟨?_, rfl, ?_⟩
  · intro h
    show Func.Polynomial (polyDeriv c) = _
    rw [polyDeriv, if_pos h]
  · intro P x
    show Except.ok (Val.num (evalScalar (polyDeriv c) x)) = _
    rw [evalScalar_eq_powerSum, powerSum_eval, toPolyHigh_polyDeriv]

theorem polynomial_derivative_power_rule_witness :
    derivative (.Polynomial [5]) = .Polynomial [0] ∧
    evaluate P0 (derivative (.Polynomial [1, 0])) (.num 3) =
      .ok (.num (Polynomial.eval 3 (Polynomial.derivative (toPolyHigh [1, 0])))) :=
  ⟨(polynomial_derivative_power_rule [5]).1 rfl,
   (polynomial_derivative_power_rule [1, 0]).2.2 P0 3⟩

/-- Claim C4 (code bug): newton_extremum(f, x0, tol) is NOT equivalent to
newton_root(f.derivative(), x0, tol): the source passes x0 but drops tol,
so the default 1e-8 is used.  At f = x^2, x0 = 1, tol = 10 the two differ
for every iteration bound: newton_extremum iterates down to 0 while
forwarding tol would accept x0 = 1 immediately. -/
theorem newton_extremum_ignores_tol (fuel : ℕ) :
    newton_extremum P0 (.func (.Polynomial [1, 0, 0])) 1 10 (fuel + 1) = .ok 0 ∧
    newton_root P0 (.func (derivative (.Polynomial [1, 0, 0]))) 1 10 fuel = .ok 1 := by
  have hd1 : derivative (.Polynomial [1, 0, 0]) = .Polynomial [2, 0] := by
    norm_num [derivative, polyDeriv, polyDerivCore, weightsOf, List.range_succ]
  have h1 : evalNumN P0 (.Polynomial [2, 0]) 1 = .ok 2 := by
    norm_num [evalNumN, evaluate, evalScalar_eq_powerSum, powerSum]
  constructor
  · show newton_root P0 (.func (derivative (.Polynomial [1, 0, 0]))) 1 defaultTol
      (fuel + 1) = .ok 0
    rw [hd1]
    have h2 : evalNumN P0 (derivative (.Polynomial [2, 0])) 1 = .ok 2 := by
      norm_num [evalNumN, evaluate, derivative, polyDeriv, polyDerivCore,
        weightsOf, List.range_succ, evalScalar_eq_powerSum, powerSum]
    have h3 : evalNumN P0 (.Polynomial [2, 0]) (1 - 2 / 2) = .ok 0 := by
      norm_num [evalNumN, evaluate, evalScalar_eq_powerSum, powerSum]
    have hloop : newtonLoop P0 (.Polynomial [2, 0]) defaultTol (fuel + 1) 1 2 = .ok 0 := by
      unfold newtonLoop
      rw [if_pos (show |(2 : ℚ)| > defaultTol by norm_num [defaultTol]), h2]
      show (if (2 : ℚ) = 0 then Except.error NewtonErr.zeroDivision
        else
          match evalNumN P0 (.Polynomial [2, 0]) (1 - 2 / 2) with
          | Except.error e => Except.error e
          | Except.ok fx2 =>
            newtonLoop P0 (.Polynomial [2, 0]) defaultTol fuel (1 - 2 / 2) fx2) =
        Except.ok 0
      rw [if_neg (by norm_num), h3]
      show newtonLoop P0 (.Polynomial [2, 0]) defaultTol fuel (1 - 2 / 2) 0 = .ok 0
      rw [newtonLoop_done P0 _ _ _ _ _ (by norm_num [defaultTol])]
      norm_num
    have hr : newton_root P0 (.func (.Polynomial [2, 0])) 1 defaultTol (fuel + 1) =
        (match evalNumN P0 (.Polynomial [2, 0]) 1 with
          | Except.error e => Except.error e
          | Except.ok fx =>
            newtonLoop P0 (.Polynomial [2, 0]) defaultTol (fuel + 1) 1 fx) := rfl
    rw [hr, h1]
    exact hloop
  · rw [hd1]
    have hr : newton_root P0 (.func (.Polynomial [2, 0])) 1 10 fuel =
        (match evalNumN P0 (.Polynomial [2, 0]) 1 with
          | Except.error e => Except.error e
          | Except.ok fx => newtonLoop P0 (.Polynomial [2, 0]) 10 fuel 1 fx) := rfl
    rw [hr, h1]
    show newtonLoop P0 (.Polynomial [2, 0]) 10 fuel 1 2 = .ok 1
    exact newtonLoop_done P0 _ _ _ _ _ (by norm_num)

/-- Claim C5: newton_root rejects any argument that is not an Expression
Node and any Symbolic node with a ValueError before any evaluation or
iteration (for every tolerance, start point and iteration budget,
including a zero budget); for a non-Symbolic proper node it never fails
with either of those two ValueErrors. -/
theorem newton_root_argument_checks (P : MathProvider) (v : Val)
    (hv : ∀ g : Func, v ≠ .func g) (s : String) (f : Func)
    (hA : f.isAbstractFunction = true) (hS : f.isSymbolic = false)
    (x0 tol : ℚ) (fuel : ℕ) :
    newton_root P v x0 tol fuel = .error .notAbstractFunction ∧
    newton_root P (.func (.Symbolic s)) x0 tol fuel = .error .symbolicArg ∧
    ∀ e : NewtonErr, newton_root P (.func f) x0 tol fuel = .error e →
      e ≠ .notAbstractFunction ∧ e ≠ .symbolicArg := by
  refine ⟨?_, rfl, ?_⟩
  · cases v with
    | func g => exact absurd rfl (hv g)
    | num q => rfl
    | arr w => rfl
    | list w => rfl
    | str t => rfl
    | none => rfl
  · intro e he
    have he2 : (if f.isAbstractFunction = true then
        (if f.isSymbolic = true then Except.error NewtonErr.symbolicArg
         else
           match evalNumN P f x0 with
           | Except.error e => Except.error e
           | Except.ok fx => newtonLoop P f tol fuel x0 fx)
        else Except.error NewtonErr.notAbstractFunction) = Except.error e := he
    rw [hA, hS] at he2
    simp only [eq_self_iff_true, if_true, Bool.false_eq_true, if_false] at he2
    cases hev : evalNumN P f x0 with
    | error e0 =>
      rw [hev] at he2
      have he3 : Except.error (α := ℚ) e0 = Except.error e := he2
      injection he3 with he3
      exact he3 ▸ evalNumN_error_shape P f x0 e0 hev
    | ok fx =>
      rw [hev] at he2
      exact newtonLoop_error_shape P f tol fuel x0 fx e he2

theorem newton_root_argument_checks_witness :
    newton_root P0 (.num 0) 0 1 0 = .error .notAbstractFunction ∧
    newton_root P0 (.func (.Symbolic ("f"))) 0 1 0 = .error .symbolicArg ∧
    ((NewtonErr.evalFail .typeError) ≠ .notAbstractFunction ∧
      (NewtonErr.evalFail .typeError) ≠ .symbolicArg) := by
  obtain ⟨ha, hb, hc⟩ := newton_root_argument_checks P0 (.num 0)
    (fun g h => Val.noConfusion h) ("f") (.Sum (.Symbolic ("g")) .Sin)
    rfl rfl 0 1 0
  refine ⟨ha, hb, hc _ ?_⟩
  rfl

/-- Claim C6 counterexample: for p = Polynomial(0) and q = Polynomial(5)
(equal degrees, so the right operand receives the slice assignment) the
added coefficients are all zero, and both operands' stored coefficients
are unchanged after p + q — refuting "the operands are not both left
unchanged" for every pair. -/
theorem polynomial_add_both_operands_unchanged_cex :
    (polyAddFull [(0 : ℚ)] [5]).2.1 = [0] ∧ (polyAddFull [(0 : ℚ)] [5]).2.2 = [5] := by
  norm_num [polyAddFull, alignedAdd]

/-- Claim C6 (amended): p + q returns the right-aligned coefficient sum,
and the slice assignment stores that sum into the coefficient array of
the higher-degree operand (the right operand q when degrees are equal),
while the other operand keeps its coefficients; hence the operands are
not both left unchanged whenever the aligned sum differs from the
mutated operand's original coefficients. -/
theorem polynomial_add_mutates_higher_operand (s o : List ℚ)
    (hs : s ≠ []) (ho : o ≠ []) :
    (polyAddFull s o).1 = rightSum s o ∧
    (if o.length ≥ s.length
      then (polyAddFull s o).2.2 = rightSum s o ∧ (polyAddFull s o).2.1 = s
      else (polyAddFull s o).2.1 = rightSum s o ∧ (polyAddFull s o).2.2 = o) ∧
    ((if o.length ≥ s.length then rightSum s o ≠ o else rightSum s o ≠ s) →
      ¬((polyAddFull s o).2.1 = s ∧ (polyAddFull s o).2.2 = o)) := by
  by_cases hcmp : ((s.length : Int) - 1) > ((o.length : Int) - 1)
  · have hlen : o.length < s.length := by omega
    have hno : ¬(o.length ≥ s.length) := by omega
    have hP : polyAddFull s o = (alignedAdd s o, alignedAdd s o, o) := by
      unfold polyAddFull; rw [if_pos hcmp]
    have hR : rightSum s o = alignedAdd s o := by
      unfold rightSum
      have hmax : max s.length o.length = s.length := by omega
      rw [hmax, Nat.sub_self, List.replicate_zero, List.nil_append]
      exact (alignedAdd_eq_zipWith s o (le_of_lt hlen)).symm
    refine ⟨?_, ?_, ?_⟩
    · rw [hP, hR]
    · rw [if_neg hno, hP, hR]
      exact ⟨rfl, rfl⟩
    · rw [if_neg hno]
      intro hne hcon
      rw [hP] at hcon
      exact hne (hR.trans hcon.1)
  · have hlen : s.length ≤ o.length := by omega
    have hyes : o.length ≥ s.length := hlen
    have hP : polyAddFull s o = (alignedAdd o s, s, alignedAdd o s) := by
      unfold polyAddFull; rw [if_neg hcmp]
    have hR : rightSum s o = alignedAdd o s := by
      unfold rightSum
      have hmax : max s.length o.length = o.length := by omega
      rw [hmax, Nat.sub_self, List.replicate_zero, List.nil_append]
      rw [alignedAdd_eq_zipWith o s hlen]
      exact zipWith_add_comm _ _
    refine ⟨?_, ?_, ?_⟩
    · rw [hP, hR]
    · rw [if_pos hyes, hP, hR]
      exact ⟨rfl, rfl⟩
    · rw [if_pos hyes]
      intro hne hcon
      rw [hP] at hcon
      exact hne (hR.trans hcon.2)

theorem polynomial_add_mutates_higher_operand_witness :
    (polyAddFull [(1 : ℚ)] [10, 20]).1 = [10, 21] ∧
    (polyAddFull [(1 : ℚ)] [10, 20]).2.2 = [10, 21] ∧
    (polyAddFull [(1 : ℚ)] [10, 20]).2.1 = [1] := by
  obtain ⟨h1, h2, h3⟩ := polynomial_add_mutates_higher_operand [(1 : ℚ)] [10, 20]
    (by simp) (by simp)
  rw [if_pos (by norm_num)] at h2
  have hr : rightSum [(1 : ℚ)] [10, 20] = [10, 21] := by
    norm_num [rightSum, List.replicate]
  exact ⟨hr ▸ h1, hr ▸ h2.1, h2.2⟩

/-- Claim C7: for every Polynomial, numeric vector and in-range index,
the i-th entry of the vectorized (Vandermonde) evaluation equals the
scalar evaluation at the i-th input. -/
theorem polynomial_vector_scalar_evaluate_agree (P : MathProvider)
    (c v : List ℚ) (i : ℕ) (hi : i < v.length) :
    evaluate P (.Polynomial c) (.arr v) =
      .ok (.arr (v.map (fun t => evalScalar c t))) ∧
    evaluate P (.Polynomial c) (.num (v.getD i 0)) =
      .ok (.num ((v.map (fun t => evalScalar c t)).getD i 0)) := by
  have hmap : v.map (fun t => dotL (vanderRow t c.length) c) =
      v.map (fun t => evalScalar c t) :=
    List.map_congr_left (fun t _ => by
      rw [vander_dot_eq_powerSum, evalScalar_eq_powerSum])
  constructor
  · show Except.ok (Val.arr (v.map (fun t => dotL (vanderRow t c.length) c))) = _
    rw [hmap]
  · show Except.ok (Val.num (evalScalar c (v.getD i 0))) = _
    have hi2 : i < (v.map (fun t => evalScalar c t)).length := by
      rw [List.length_map]; exact hi
    rw [List.getD_eq_getElem v 0 hi, List.getD_eq_getElem _ 0 hi2,
      List.getElem_map]

theorem polynomial_vector_scalar_evaluate_agree_witness :
    evaluate P0 (.Polynomial [1, 2]) (.arr [3, 4]) =
      .ok (.arr ([3, 4].map (fun t => evalScalar [1, 2] t))) ∧
    evaluate P0 (.Polynomial [1, 2]) (.num ([3, 4].getD 0 0)) =
      .ok (.num (([3, 4].map (fun t => evalScalar [1, 2] t)).getD 0 0)) :=
  polynomial_vector_scalar_evaluate_agree P0 [1, 2] [3, 4] 0 (by decide)

/-- Claim C8: calling a Symbolic node with any argument (number, string,
array, list, None or another node) returns the formatted string
name(arg); it never returns a Compose node and never a number. -/
theorem symbolic_call_returns_string (P : MathProvider) (n : String) (x : Val) :
    callVal P (.Symbolic n) x = .ok (.str (n ++ "(" ++ showVal x ++ ")")) ∧
    (∀ h : Func, callVal P (.Symbolic n) x ≠ .ok (.func h)) ∧
    (∀ q : ℚ, callVal P (.Symbolic n) x ≠ .ok (.num q)) := by
  have h : callVal P (.Symbolic n) x = .ok (.str (n ++ "(" ++ showVal x ++ ")")) := by
    cases x <;> rfl
  refine ⟨h, fun y hy => ?_, fun y hy => ?_⟩ <;> rw [h] at hy <;> simp at hy

/-- Claim C9: Polynomial(1,2,0) called with the indeterminate name "x"
renders exactly "(x)^2 + 2(x)": unit leading coefficient suppressed,
zero constant suppressed, trailing separator stripped. -/
theorem polynomial_render_string (P : MathProvider) :
    callVal P (.Polynomial [1, 2, 0]) (.str ("x")) = .ok (.str ("(x)^2 + 2(x)")) := by
  have h : formatPy (polyStr [1, 2, 0]) ("x") = "(x)^2 + 2(x)" := by decide
  show Except.ok (Val.str (formatPy (funcStr (.Polynomial [1, 2, 0])) ("x"))) = _
  rw [show funcStr (.Polynomial [1, 2, 0]) = polyStr [1, 2, 0] from rfl, h]

/-- Claim C10: Polynomial.evaluate returns None (no value, no error) on
any input that is neither a scalar number nor a numpy array: both
dispatch branches are skipped and the method falls through. -/
theorem polynomial_evaluate_fallthrough_none (P : MathProvider) (c : List ℚ)
    (x : Val) (hnum : ∀ q : ℚ, x ≠ .num q) (harr : ∀ v : List ℚ, x ≠ .arr v) :
    evaluate P (.Polynomial c) x = .ok .none := by
  cases x with
  | num q => exact absurd rfl (hnum q)
  | arr v => exact absurd rfl (harr v)
  | list v => rfl
  | str s => rfl
  | none => rfl
  | func f => rfl

theorem polynomial_evaluate_fallthrough_none_witness :
    evaluate P0 (.Polynomial [1, 2]) (.list [3, 4]) = .ok .none :=
  polynomial_evaluate_fallthrough_none P0 [1, 2] (.list [3, 4])
    (fun q h => Val.noConfusion h) (fun v h => Val.noConfusion h)

theorem symbolic_call_returns_string_witness :
    callVal P0 (.Symbolic ("f")) (.num 2) =
      .ok (.str ("f" ++ "(" ++ showVal (.num 2) ++ ")")) :=
  (symbolic_call_returns_string P0 ("f") (.num 2)).1
